import Mathlib

/-!
Verification development for the Grammar-Scoring-from-Voice-Samples repository.

The Python modules `app/scoring.py` and `app/text_features.py` are shallowly
embedded below.  Python floats are modelled as rationals (`ℚ`), Python ints as
`ℤ`, Python `None` as `Option`, and Python strings as `List Char`.  Python's
`round(x, n)` (round-half-to-even) is modelled exactly by `pyRound`.
-/

/-! ### Constants from `app/scoring.py` (module-level thresholds and weights) -/

def MAX_GRAMMAR_ERRORS_PER_100 : ℚ := 12
def MAX_FILLERS_PER_100 : ℚ := 8
def MAX_WER : ℚ := 35 / 100
def IDEAL_WPM_MIN : ℚ := 110
def IDEAL_WPM_MAX : ℚ := 170
def VERY_SLOW_WPM : ℚ := 60
def VERY_FAST_WPM : ℚ := 220
def WEIGHT_GRAMMAR : ℚ := 35 / 100
def WEIGHT_FILLERS : ℚ := 25 / 100
def WEIGHT_WER : ℚ := 20 / 100
def WEIGHT_FLUENCY : ℚ := 20 / 100

/-- Python's builtin `round` to the nearest integer, rounding halves to the
    nearest even integer (banker's rounding), on an exact rational value. -/
def pyRound (q : ℚ) : ℤ :=
  if q - q.floor < 1 / 2 then q.floor
  else if 1 / 2 < q - q.floor then q.floor + 1
  else if q.floor % 2 = 0 then q.floor else q.floor + 1

/-- Python's `round(q, 2)`. -/
def round2 (q : ℚ) : ℚ := (pyRound (q * 100) : ℚ) / 100

/-- Python's `round(q, 1)`. -/
def round1 (q : ℚ) : ℚ := (pyRound (q * 10) : ℚ) / 10

/-- Model of `scoring.clamp_01`: `max(0.0, min(1.0, x))`. -/
def clamp_01 (x : ℚ) : ℚ := max 0 (min 1 x)

/-- Model of `scoring.normalize_grammar_errors`: grammar-error rate per 100 words,
    divided by the 12-errors-per-100-words threshold, clamped to `[0,1]`;
    `0` when `word_count <= 0`. -/
def normalize_grammar_errors (error_count word_count : ℤ) : ℚ :=
  if word_count ≤ 0 then 0
  else
    clamp_01 ((error_count / word_count * 100) / MAX_GRAMMAR_ERRORS_PER_100)

/-- Model of `scoring.normalize_fillers`: filler rate per 100 words divided by the
    8-fillers-per-100-words threshold, clamped; `0` when `word_count <= 0`. -/
def normalize_fillers (filler_cnt word_count : ℤ) : ℚ :=
  if word_count ≤ 0 then 0
  else
    clamp_01 ((filler_cnt / word_count * 100) / MAX_FILLERS_PER_100)

/-- Model of `scoring.normalize_wer`: `wer / 0.35` clamped; `0` when `wer` is `None`
    or negative. -/
def normalize_wer (wer : Option ℚ) : ℚ :=
  match wer with
  | none => 0
  | some w => if w < 0 then 0 else clamp_01 (w / MAX_WER)

/-- Model of `scoring.fluency_penalty`: piecewise-linear V-shaped penalty around the
    ideal 110-170 WPM band; `0` for `None` or non-positive WPM. -/
def fluency_penalty (wpm : Option ℚ) : ℚ :=
  match wpm with
  | none => 0
  | some w =>
    if w ≤ 0 then 0
    else if IDEAL_WPM_MIN ≤ w ∧ w ≤ IDEAL_WPM_MAX then 0
    else if w < IDEAL_WPM_MIN then
      clamp_01 ((IDEAL_WPM_MIN - w) / (IDEAL_WPM_MIN - VERY_SLOW_WPM))
    else if IDEAL_WPM_MAX < w then
      clamp_01 ((w - IDEAL_WPM_MAX) / (VERY_FAST_WPM - IDEAL_WPM_MAX))
    else 0

/-- Model of `scoring.calculate_final_score`: weighted penalty sum, converted to a
    score out of 100, clamped to `[0,100]`, rounded to 2 decimals.  The
    source does NOT clamp the four input penalties. -/
def calculate_final_score (grammar_penalty filler_penalty wer_penalty fluency_pen : ℚ) : ℚ :=
  let total_penalty :=
    grammar_penalty * WEIGHT_GRAMMAR +
    filler_penalty * WEIGHT_FILLERS +
    wer_penalty * WEIGHT_WER +
    fluency_pen * WEIGHT_FLUENCY
  let score := 100 - total_penalty * 100
  let score := max 0 (min 100 score)
  round2 score

/-- Model of `scoring.generate_score_explanation`: fixed-format breakdown string with
    each deduction `penalty * weight * 100` rounded to 1 decimal. -/
def generate_score_explanation
    (grammar_penalty filler_penalty wer_penalty fluency_pen final : ℚ) : String :=
  let g := round1 (grammar_penalty * WEIGHT_GRAMMAR * 100)
  let f := round1 (filler_penalty * WEIGHT_FILLERS * 100)
  let w := round1 (wer_penalty * WEIGHT_WER * 100)
  let fl := round1 (fluency_pen * WEIGHT_FLUENCY * 100)
  s!"Score: {final}/100 | Grammar: -{g} pts | Fillers: -{f} pts | WER: -{w} pts | Fluency: -{fl} pts"

/-! ### `app/text_features.py` — strings as `List Char` -/

/-- Python regex `\s` / `str.strip` whitespace, ASCII range (space, tab,
    newline, carriage return, vertical tab, form feed). -/
def pyIsSpace (c : Char) : Bool :=
  c == ' ' || c == '\t' || c == '\n' || c == '\r' || c == '\x0b' || c == '\x0c'

/-- Python regex `\w` word character, ASCII range: letters, digits, underscore. -/
def isWordChar (c : Char) : Bool := c.isAlphanum || c == '_'

/-- The punctuation class `[.,!?;:]` of `normalize_transcript`. -/
def isPunct (c : Char) : Bool :=
  c == '.' || c == ',' || c == '!' || c == '?' || c == ';' || c == ':'

/-- Python's `str.strip()`: drop leading and trailing whitespace. -/
def pyStrip (l : List Char) : List Char :=
  (((l.dropWhile pyIsSpace).reverse).dropWhile pyIsSpace).reverse

/-- Model of `re.sub(r'\s+', ' ', text)`: each maximal run of whitespace becomes one
    space.  A whitespace character followed by more whitespace is dropped;
    the last character of a run becomes `' '`. -/
def collapseWS : List Char → List Char
  | [] => []
  | [a] => if pyIsSpace a then [' '] else [a]
  | a :: b :: rest =>
    if pyIsSpace a then
      if pyIsSpace b then collapseWS (b :: rest)
      else ' ' :: collapseWS (b :: rest)
    else a :: collapseWS (b :: rest)

/-- One step (from the right) of `re.sub(r'\s+([.,!?;:])', r'\1', text)`.
    State: (output so far, "everything to the right up to a punctuation
    character is whitespace").  A whitespace character is deleted exactly
    when only whitespace stands between it and a following punctuation
    character, which is the set of characters that regex removes. -/
def fixAux (c : Char) (acc : List Char × Bool) : List Char × Bool :=
  if isPunct c then (c :: acc.1, true)
  else if pyIsSpace c then (if acc.2 then acc else (c :: acc.1, false))
  else (c :: acc.1, false)

/-- Model of `re.sub(r'\s+([.,!?;:])', r'\1', text)`. -/
def fixPunct (l : List Char) : List Char := (l.foldr fixAux ([], false)).1

/-- Model of `text_features.normalize_transcript`: collapse whitespace, remove
    whitespace before punctuation, strip the ends; `""` for `""`. -/
def normalize_transcript (text : List Char) : List Char :=
  if text = [] then [] else pyStrip (fixPunct (collapseWS text))

/-- The two shapes of filler regex used by `filler_count`: a literal
    word/phrase `\b...\b`, or a word with a repeatable final letter such as
    `\bum+\b` (base already holds one copy of the repeated letter). -/
inductive Pat
  | lit : List Char → Pat
  | plus : List Char → Char → Pat

/-- Longest match of a pattern at the head of `l`: the matched characters
    and the rest.  For `plus`, the greedy `+` takes the whole run of the
    repeated letter (shorter extents cannot satisfy the trailing `\b`, so
    regex backtracking never picks them). -/
def matchAt : Pat → List Char → Option (List Char × List Char)
  | .lit s, l => if s.isPrefixOf l then some (s, l.drop s.length) else none
  | .plus base r, l =>
    if base.isPrefixOf l then
      let rest0 := l.drop base.length
      let extra := rest0.takeWhile (fun c => c == r)
      some (base ++ extra, rest0.drop extra.length)
    else none

/-- Boundary check `\b` before a pattern that starts with a word character: start of text
    or a preceding non-word character. -/
def atBoundary : Option Char → Bool
  | none => true
  | some c => !isWordChar c

/-- Boundary check `\b` after a pattern that ends with a word character: end of text or a
    following non-word character. -/
def endBoundary : List Char → Bool
  | [] => true
  | c :: _ => !isWordChar c

/-- Model of `re.findall(pattern, text)`: scan left to right, emit non-overlapping
    matches, resume after each match, advance one character on failure.
    `fuel` bounds the recursion; every step consumes at least one character
    of `text`, so `fuel = text.length` never runs out. -/
def findAllF (p : Pat) : ℕ → Option Char → List Char → List (List Char)
  | 0, _, _ => []
  | _ + 1, _, [] => []
  | fuel + 1, prev, c :: cs =>
    match matchAt p (c :: cs) with
    | some (m, rest) =>
      if atBoundary prev && endBoundary rest then
        m :: findAllF p fuel (some (m.getLastD c)) rest
      else findAllF p fuel (some c) cs
    | none => findAllF p fuel (some c) cs

/-- An apostrophe character, kept out of string literals. -/
def apos : Char := Char.ofNat 39

/-- The fixed, ordered filler pattern list of `filler_count` (multi-word
    phrases first, then repeated-letter fillers, then discourse markers). -/
def filler_patterns : List Pat :=
  [ .lit "you know".toList,
    .lit "i mean".toList,
    .lit "kind of".toList,
    .lit "kinda".toList,
    .lit "sort of".toList,
    .lit "sorta".toList,
    .lit "you see".toList,
    .lit "let me see".toList,
    .lit ("let".toList ++ [apos] ++ "s see".toList),
    .plus "um".toList 'm',
    .plus "uh".toList 'h',
    .plus "erm".toList 'm',
    .plus "hmm".toList 'm',
    .plus "ah".toList 'h',
    .plus "oh".toList 'h',
    .lit "like".toList,
    .lit "basically".toList,
    .lit "actually".toList,
    .lit "literally".toList,
    .lit "well".toList,
    .lit "so".toList,
    .lit "just".toList ]

/-- Model of `text_features.filler_count`: lowercase, strip and collapse whitespace,
    then run every pattern over the whole text and concatenate all match
    lists in pattern order.  `(0, [])` for empty or all-whitespace text. -/
def filler_count (text : List Char) : ℕ × List (List Char) :=
  if text.all pyIsSpace then (0, [])
  else
    let nt := collapseWS (pyStrip (text.map Char.toLower))
    let ds := (filler_patterns.map fun p => findAllF p nt.length none nt).flatten
    (ds.length, ds)

/-- Model of `text_features.words_per_minute`: `None` when `duration_sec <= 0` or
    `word_count < 0`, else `(word_count / duration_sec) * 60` rounded to 2
    decimals. -/
def words_per_minute (word_count : ℤ) (duration_sec : ℚ) : Option ℚ :=
  if duration_sec ≤ 0 then none
  else if word_count < 0 then none
  else some (round2 (word_count / duration_sec * 60))

/-- One LanguageTool match, as the fields `grammar_errors` reads off it. -/
structure LTMatch where
  message : String
  ruleId : String
  context : String
  offset : ℤ
  errorLength : ℤ
  replacements : List String

/-- One entry of `grammar_errors`' `error_details` list. -/
structure GrammarFinding where
  message : String
  rule_id : String
  context : String
  offset : ℤ
  length : ℤ
  replacements : List String

/-- Model of `text_features.grammar_errors`, with the external LanguageTool engine a
    parameter (`tool.check` may raise, modelled as `Except`): `(0, [])` for
    empty/all-whitespace text, `(0, [])` when the engine fails (the
    `except Exception` branch), else the matches mapped to findings with at
    most 3 suggested replacements each. -/
def grammar_errors (check : List Char → Except String (List LTMatch))
    (text : List Char) : ℕ × List GrammarFinding :=
  if text.all pyIsSpace then (0, [])
  else
    match check text with
    | .ok ms =>
      (ms.length, ms.map fun m =>
        ⟨m.message, m.ruleId, m.context, m.offset, m.errorLength,
         if m.replacements = [] then [] else m.replacements.take 3⟩)
    | .error _ => (0, [])

/-- The example transcript of the filler tests (apostrophe spliced in):
    `"Um, I think, you know, it's like really good."`. -/
def sampleFillerText : List Char :=
  "Um, I think, you know, it".toList ++ [apos] ++ "s like really good.".toList

/-! ### Exception-aware variants for the totality claim

Python's `/` raises `ZeroDivisionError` on a zero divisor; it is the only
partial primitive any of the nine core functions applies (`round`, `max`,
`min`, string formatting, regex scanning and slicing are total).  Each
`checked_*` definition repeats the source with every division routed
through `cdiv`; the totality theorem shows the guards of the source make
every such division safe. -/

/-- Division that fails on a zero divisor, as Python's `/` does. -/
def cdiv (a b : ℚ) : Except String ℚ :=
  if b = 0 then .error "ZeroDivisionError" else .ok (a / b)

/-- Version of `normalize_grammar_errors` with its two divisions checked. -/
def checked_normalize_grammar_errors (error_count word_count : ℤ) :
    Except String ℚ :=
  if word_count ≤ 0 then .ok 0
  else do
    let ger ← cdiv (error_count : ℚ) (word_count : ℚ)
    let penalty ← cdiv (ger * 100) MAX_GRAMMAR_ERRORS_PER_100
    .ok (clamp_01 penalty)

/-- Version of `normalize_fillers` with its two divisions checked. -/
def checked_normalize_fillers (filler_cnt word_count : ℤ) : Except String ℚ :=
  if word_count ≤ 0 then .ok 0
  else do
    let rate ← cdiv (filler_cnt : ℚ) (word_count : ℚ)
    let penalty ← cdiv (rate * 100) MAX_FILLERS_PER_100
    .ok (clamp_01 penalty)

/-- Version of `normalize_wer` with its division checked. -/
def checked_normalize_wer (wer : Option ℚ) : Except String ℚ :=
  match wer with
  | none => .ok 0
  | some w =>
    if w < 0 then .ok 0
    else do
      let penalty ← cdiv w MAX_WER
      .ok (clamp_01 penalty)

/-- Version of `fluency_penalty` with its two ramp divisions checked. -/
def checked_fluency_penalty (wpm : Option ℚ) : Except String ℚ :=
  match wpm with
  | none => .ok 0
  | some w =>
    if w ≤ 0 then .ok 0
    else if IDEAL_WPM_MIN ≤ w ∧ w ≤ IDEAL_WPM_MAX then .ok 0
    else if w < IDEAL_WPM_MIN then do
      let penalty ← cdiv (IDEAL_WPM_MIN - w) (IDEAL_WPM_MIN - VERY_SLOW_WPM)
      .ok (clamp_01 penalty)
    else if IDEAL_WPM_MAX < w then do
      let penalty ← cdiv (w - IDEAL_WPM_MAX) (VERY_FAST_WPM - IDEAL_WPM_MAX)
      .ok (clamp_01 penalty)
    else .ok 0

/-- Version of `words_per_minute` with its division checked. -/
def checked_words_per_minute (word_count : ℤ) (duration_sec : ℚ) :
    Except String (Option ℚ) :=
  if duration_sec ≤ 0 then .ok none
  else if word_count < 0 then .ok none
  else do
    let q ← cdiv (word_count : ℚ) duration_sec
    .ok (some (round2 (q * 60)))

/-- Checked `calculate_final_score`: the source applies no partial primitive (products, sums,
    `max`/`min` and `round` are total), so its checked form cannot fail. -/
def checked_calculate_final_score (g f w fl : ℚ) : Except String ℚ :=
  .ok (calculate_final_score g f w fl)

/-- Checked `generate_score_explanation`: the source applies no partial primitive (`round` and
    f-string formatting are total). -/
def checked_generate_score_explanation (g f w fl final : ℚ) :
    Except String String :=
  .ok (generate_score_explanation g f w fl final)

/-- Checked `normalize_transcript`: the source applies no partial primitive (regex substitution
    and `strip` are total). -/
def checked_normalize_transcript (text : List Char) :
    Except String (List Char) :=
  .ok (normalize_transcript text)

/-- Checked `filler_count`: the source applies no partial primitive (`lower`, `strip`, regex
    scans and list concatenation are total). -/
def checked_filler_count (text : List Char) :
    Except String (ℕ × List (List Char)) :=
  .ok (filler_count text)

/-! ### Helper lemmas -/

theorem ratFloor_eq_floor (q : ℚ) : q.floor = ⌊q⌋ := by
  rw [Rat.floor_def, Rat.floor_def']

theorem clamp_01_nonneg (x : ℚ) : 0 ≤ clamp_01 x := le_max_left 0 _

theorem clamp_01_le_one (x : ℚ) : clamp_01 x ≤ 1 :=
  max_le (by norm_num) (min_le_left 1 x)

theorem clamp_01_eq_self {x : ℚ} (h0 : 0 ≤ x) (h1 : x ≤ 1) : clamp_01 x = x := by
  rw [clamp_01, min_eq_right h1, max_eq_right h0]

theorem clamp_01_eq_one {x : ℚ} (h : 1 ≤ x) : clamp_01 x = 1 := by
  rw [clamp_01, min_eq_left h]
  exact max_eq_right (by norm_num)

theorem clamp_01_mono {x y : ℚ} (h : x ≤ y) : clamp_01 x ≤ clamp_01 y :=
  max_le_max le_rfl (min_le_min le_rfl h)

theorem pyRound_le {q : ℚ} {n : ℤ} (h : q ≤ n) : pyRound q ≤ n := by
  unfold pyRound
  rw [ratFloor_eq_floor]
  have hfl : (⌊q⌋ : ℚ) ≤ q := Int.floor_le q
  have hn : ⌊q⌋ ≤ n := by
    have := Int.floor_mono h
    simpa using this
  split_ifs with h1 h2 h3
  · exact hn
  · have h4 : (⌊q⌋ : ℚ) + 1 / 2 ≤ (n : ℚ) := by
      have := not_lt.mp h1
      linarith
    have h5 : ⌊q⌋ < n := by
      have : (⌊q⌋ : ℚ) < (n : ℚ) := by linarith
      exact_mod_cast this
    omega
  · exact hn
  · have h4 : (⌊q⌋ : ℚ) + 1 / 2 ≤ (n : ℚ) := by
      have := not_lt.mp h1
      linarith
    have h5 : ⌊q⌋ < n := by
      have : (⌊q⌋ : ℚ) < (n : ℚ) := by linarith
      exact_mod_cast this
    omega

theorem le_pyRound {q : ℚ} {n : ℤ} (h : (n : ℚ) ≤ q) : n ≤ pyRound q := by
  unfold pyRound
  rw [ratFloor_eq_floor]
  have hn : n ≤ ⌊q⌋ := Int.le_floor.mpr h
  split_ifs <;> omega

theorem round2_nonneg {q : ℚ} (h : 0 ≤ q) : 0 ≤ round2 q := by
  unfold round2
  have h0 : (0 : ℤ) ≤ pyRound (q * 100) := le_pyRound (by push_cast; linarith)
  have : (0 : ℚ) ≤ (pyRound (q * 100) : ℚ) := by exact_mod_cast h0
  linarith

theorem round2_le_100 {q : ℚ} (h : q ≤ 100) : round2 q ≤ 100 := by
  unfold round2
  have h0 : pyRound (q * 100) ≤ (10000 : ℤ) := pyRound_le (by push_cast; linarith)
  have : (pyRound (q * 100) : ℚ) ≤ 10000 := by exact_mod_cast h0
  linarith

/-- Equality of the source's final-score expression with the spec's shape
    (weights written as literal rationals, input penalties unclamped). -/
theorem calculate_final_score_eq (g f w fl : ℚ) :
    calculate_final_score g f w fl =
      round2 (max 0 (min 100
        (100 - (35 / 100 * g + 25 / 100 * f + 20 / 100 * w + 20 / 100 * fl) * 100))) := by
  simp only [calculate_final_score, WEIGHT_GRAMMAR, WEIGHT_FILLERS, WEIGHT_WER, WEIGHT_FLUENCY]
  ring_nf

theorem calculate_final_score_bounds (g f w fl : ℚ) :
    0 ≤ calculate_final_score g f w fl ∧ calculate_final_score g f w fl ≤ 100 := by
  rw [calculate_final_score_eq]
  constructor
  · exact round2_nonneg (le_max_left 0 _)
  · exact round2_le_100 (max_le (by norm_num) (min_le_left 100 _))

/-! ### Claim C1 -/

/-- C1, counterexample.  The claim says `calculate_final_score` gives the
    same result as on `clamp_01`-ed inputs for every input; the source does
    not clamp its inputs, so an out-of-range grammar penalty of `2`
    produces `30.0` while the clamped inputs produce `65.0`. -/
theorem C1_counterexample :
    calculate_final_score 2 0 0 0 = 30 ∧
    calculate_final_score (clamp_01 2) (clamp_01 0) (clamp_01 0) (clamp_01 0) = 65 ∧
    calculate_final_score 2 0 0 0 ≠
      calculate_final_score (clamp_01 2) (clamp_01 0) (clamp_01 0) (clamp_01 0) := by
  have h1 : calculate_final_score 2 0 0 0 = 30 := by
    simp only [calculate_final_score, WEIGHT_GRAMMAR, WEIGHT_FILLERS, WEIGHT_WER,
      WEIGHT_FLUENCY, round2, pyRound, ratFloor_eq_floor]
    norm_num
  have h2 : calculate_final_score (clamp_01 2) (clamp_01 0) (clamp_01 0) (clamp_01 0) = 65 := by
    simp only [calculate_final_score, clamp_01, WEIGHT_GRAMMAR, WEIGHT_FILLERS, WEIGHT_WER,
      WEIGHT_FLUENCY, round2, pyRound, ratFloor_eq_floor]
    norm_num
  refine ⟨h1, h2, ?_⟩
  rw [h1, h2]
  norm_num

/-- C1, amended.  The final score always lies in `[0, 100]` for arbitrary
    (also out-of-range) inputs, but only the final score is clamped: the
    clamp-each-input equality holds when the inputs are already in `[0,1]`
    (where `clamp_01` is the identity), not in general. -/
theorem C1_score_bounds :
    ∀ g f w fl : ℚ,
      (0 ≤ calculate_final_score g f w fl ∧ calculate_final_score g f w fl ≤ 100)
    ∧ (0 ≤ g → g ≤ 1 → 0 ≤ f → f ≤ 1 → 0 ≤ w → w ≤ 1 → 0 ≤ fl → fl ≤ 1 →
        calculate_final_score g f w fl =
          calculate_final_score (clamp_01 g) (clamp_01 f) (clamp_01 w) (clamp_01 fl)) := by
  intro g f w fl
  refine ⟨calculate_final_score_bounds g f w fl, ?_⟩
  intro hg0 hg1 hf0 hf1 hw0 hw1 hfl0 hfl1
  rw [clamp_01_eq_self hg0 hg1, clamp_01_eq_self hf0 hf1,
    clamp_01_eq_self hw0 hw1, clamp_01_eq_self hfl0 hfl1]

/-- C1, witness: the amended statement applied at concrete inputs. -/
theorem C1_witness :
    (0 ≤ calculate_final_score (1/2) (1/2) 0 1 ∧ calculate_final_score (1/2) (1/2) 0 1 ≤ 100)
    ∧ calculate_final_score (1/2) (1/2) 0 1 =
        calculate_final_score (clamp_01 (1/2)) (clamp_01 (1/2)) (clamp_01 0) (clamp_01 1) :=
  ⟨(C1_score_bounds (1/2) (1/2) 0 1).1,
   (C1_score_bounds (1/2) (1/2) 0 1).2 (by norm_num) (by norm_num) (by norm_num) (by norm_num)
     (by norm_num) (by norm_num) (by norm_num) (by norm_num)⟩

/-! ### Claim C2 -/

/-- C2.  The final score is the weighted penalty sum mapped to
    `clamp(100 - total*100, 0, 100)` and rounded to 2 decimals, with
    weights 0.35 / 0.25 / 0.20 / 0.20, and the three quoted values hold
    (82.5 = 165/2). -/
theorem C2_final_score_formula :
    (∀ g f w fl : ℚ,
      calculate_final_score g f w fl =
        round2 (max 0 (min 100
          (100 - (35 / 100 * g + 25 / 100 * f + 20 / 100 * w + 20 / 100 * fl) * 100))))
    ∧ calculate_final_score 0 0 0 0 = 100
    ∧ calculate_final_score 1 1 1 1 = 0
    ∧ calculate_final_score (1/2) 0 0 0 = 165 / 2 := by
  refine ⟨calculate_final_score_eq, ?_, ?_, ?_⟩ <;>
    · simp only [calculate_final_score, WEIGHT_GRAMMAR, WEIGHT_FILLERS, WEIGHT_WER,
        WEIGHT_FLUENCY, round2, pyRound, ratFloor_eq_floor]
      norm_num

/-! ### Claim C3 -/

/-- C3, counterexample.  The claim says the fluency penalty is exactly 1.0
    for every WPM less than or equal to 60; the source returns 0 for any
    WPM less than or equal to 0 (`if wpm is None or wpm <= 0: return 0.0`),
    so at WPM = 0 the penalty is 0, not 1. -/
theorem C3_counterexample :
    fluency_penalty (some 0) = 0 ∧ (0 : ℚ) ≤ 60 ∧ fluency_penalty (some 0) ≠ 1 := by
  refine ⟨?_, by norm_num, ?_⟩ <;> simp [fluency_penalty]

/-- C3, amended.  The fluency penalty is 0 on the ideal band [110, 170],
    1.0 on (0, 60] and on [220, ∞), and follows the two linear ramps in
    between; for WPM less than or equal to 0 it is 0 (not 1). -/
theorem C3_fluency_piecewise :
    ∀ w : ℚ,
      (w ≤ 0 → fluency_penalty (some w) = 0)
    ∧ (110 ≤ w → w ≤ 170 → fluency_penalty (some w) = 0)
    ∧ (0 < w → w ≤ 60 → fluency_penalty (some w) = 1)
    ∧ (220 ≤ w → fluency_penalty (some w) = 1)
    ∧ (60 ≤ w → w ≤ 110 → fluency_penalty (some w) = (110 - w) / 50)
    ∧ (170 ≤ w → w ≤ 220 → fluency_penalty (some w) = (w - 170) / 50) := by
  intro w
  simp only [fluency_penalty, IDEAL_WPM_MIN, IDEAL_WPM_MAX, VERY_SLOW_WPM, VERY_FAST_WPM]
  norm_num only
  refine ⟨fun h => ?_, fun h1 h2 => ?_, fun h1 h2 => ?_, fun h => ?_,
    fun h1 h2 => ?_, fun h1 h2 => ?_⟩
  · rw [if_pos h]
  · rw [if_neg (by linarith), if_pos ⟨h1, h2⟩]
  · rw [if_neg (by linarith), if_neg (by rintro ⟨ha, _⟩; linarith), if_pos (by linarith)]
    exact clamp_01_eq_one ((le_div_iff₀ (by norm_num)).mpr (by linarith))
  · rw [if_neg (by linarith), if_neg (by rintro ⟨_, hb⟩; linarith), if_neg (by linarith),
      if_pos (by linarith)]
    exact clamp_01_eq_one ((le_div_iff₀ (by norm_num)).mpr (by linarith))
  · rcases lt_or_ge w 110 with hlt | hge
    · rw [if_neg (by linarith), if_neg (by rintro ⟨ha, _⟩; linarith), if_pos hlt]
      exact clamp_01_eq_self (div_nonneg (by linarith) (by norm_num))
        ((div_le_one (by norm_num)).mpr (by linarith))
    · have hw : w = 110 := le_antisymm h2 hge
      subst hw
      rw [if_neg (by norm_num), if_pos (by norm_num)]
      norm_num
  · rcases lt_or_ge (170 : ℚ) w with hlt | hge
    · rw [if_neg (by linarith), if_neg (by rintro ⟨_, hb⟩; linarith), if_neg (by linarith),
        if_pos hlt]
      exact clamp_01_eq_self (div_nonneg (by linarith) (by norm_num))
        ((div_le_one (by norm_num)).mpr (by linarith))
    · have hw : w = 170 := le_antisymm hge h1
      subst hw
      rw [if_neg (by norm_num), if_pos (by norm_num)]
      norm_num

/-- C3, witness: the amended piecewise description applied at concrete
    speaking rates (one per piece). -/
theorem C3_witness :
    fluency_penalty (some (-5)) = 0
    ∧ fluency_penalty (some 140) = 0
    ∧ fluency_penalty (some 40) = 1
    ∧ fluency_penalty (some 240) = 1
    ∧ fluency_penalty (some 90) = (110 - 90) / 50
    ∧ fluency_penalty (some 190) = (190 - 170) / 50 :=
  ⟨(C3_fluency_piecewise (-5)).1 (by norm_num),
   (C3_fluency_piecewise 140).2.1 (by norm_num) (by norm_num),
   (C3_fluency_piecewise 40).2.2.1 (by norm_num) (by norm_num),
   (C3_fluency_piecewise 240).2.2.2.1 (by norm_num),
   (C3_fluency_piecewise 90).2.2.2.2.1 (by norm_num) (by norm_num),
   (C3_fluency_piecewise 190).2.2.2.2.2 (by norm_num) (by norm_num)⟩

/-! ### Claim C4 -/

/-- C4.  For a fixed positive word count the grammar and filler penalties
    are monotone in the raw count and hit exactly 1.0 at and beyond their
    thresholds (12 and 8 per 100 words); the WER penalty is monotone on
    nonnegative WER and exactly 1.0 from 0.35 on. -/
theorem C4_monotone_and_thresholds :
    (∀ e1 e2 w : ℤ, 0 < w → e1 ≤ e2 →
        normalize_grammar_errors e1 w ≤ normalize_grammar_errors e2 w)
    ∧ (∀ e w : ℤ, 0 < w → 12 ≤ (e : ℚ) / (w : ℚ) * 100 →
        normalize_grammar_errors e w = 1)
    ∧ (∀ c1 c2 w : ℤ, 0 < w → c1 ≤ c2 →
        normalize_fillers c1 w ≤ normalize_fillers c2 w)
    ∧ (∀ c w : ℤ, 0 < w → 8 ≤ (c : ℚ) / (w : ℚ) * 100 →
        normalize_fillers c w = 1)
    ∧ (∀ x y : ℚ, 0 ≤ x → x ≤ y → normalize_wer (some x) ≤ normalize_wer (some y))
    ∧ (∀ x : ℚ, 35 / 100 ≤ x → normalize_wer (some x) = 1) := by
  have hcast : ∀ w : ℤ, 0 < w → (0 : ℚ) < (w : ℚ) := fun w hw => by exact_mod_cast hw
  refine ⟨?_, ?_, ?_, ?_, ?_, ?_⟩
  · intro e1 e2 w hw he
    have hw' := hcast w hw
    have he' : (e1 : ℚ) ≤ (e2 : ℚ) := by exact_mod_cast he
    simp only [normalize_grammar_errors, if_neg (not_le.mpr hw), MAX_GRAMMAR_ERRORS_PER_100]
    apply clamp_01_mono
    gcongr
  · intro e w hw hrate
    have hw' := hcast w hw
    simp only [normalize_grammar_errors, if_neg (not_le.mpr hw), MAX_GRAMMAR_ERRORS_PER_100]
    exact clamp_01_eq_one ((one_le_div (by norm_num)).mpr hrate)
  · intro c1 c2 w hw hc
    have hw' := hcast w hw
    have hc' : (c1 : ℚ) ≤ (c2 : ℚ) := by exact_mod_cast hc
    simp only [normalize_fillers, if_neg (not_le.mpr hw), MAX_FILLERS_PER_100]
    apply clamp_01_mono
    gcongr
  · intro c w hw hrate
    have hw' := hcast w hw
    simp only [normalize_fillers, if_neg (not_le.mpr hw), MAX_FILLERS_PER_100]
    exact clamp_01_eq_one ((one_le_div (by norm_num)).mpr hrate)
  · intro x y hx hxy
    simp only [normalize_wer, if_neg (not_lt.mpr hx), if_neg (not_lt.mpr (hx.trans hxy)),
      MAX_WER]
    apply clamp_01_mono
    gcongr
  · intro x hx
    have hx0 : (0 : ℚ) ≤ x := le_trans (by norm_num) hx
    simp only [normalize_wer, if_neg (not_lt.mpr hx0), MAX_WER]
    exact clamp_01_eq_one ((one_le_div (by norm_num)).mpr hx)

/-- C4, witness: monotonicity and the thresholds applied at concrete
    counts and rates. -/
theorem C4_witness :
    normalize_grammar_errors 3 100 ≤ normalize_grammar_errors 6 100
    ∧ normalize_grammar_errors 12 100 = 1
    ∧ normalize_fillers 2 100 ≤ normalize_fillers 4 100
    ∧ normalize_fillers 8 100 = 1
    ∧ normalize_wer (some (1/10)) ≤ normalize_wer (some (2/10))
    ∧ normalize_wer (some (35/100)) = 1 :=
  ⟨C4_monotone_and_thresholds.1 3 6 100 (by norm_num) (by norm_num),
   C4_monotone_and_thresholds.2.1 12 100 (by norm_num) (by norm_num),
   C4_monotone_and_thresholds.2.2.1 2 4 100 (by norm_num) (by norm_num),
   C4_monotone_and_thresholds.2.2.2.1 8 100 (by norm_num) (by norm_num),
   C4_monotone_and_thresholds.2.2.2.2.1 (1/10) (2/10) (by norm_num) (by norm_num),
   C4_monotone_and_thresholds.2.2.2.2.2 (35/100) (by norm_num)⟩

/-! ### Claim C5 -/

/-- C5.  On `"Um, I think, you know, it's like really good."` the filler
    detector returns count 3, and the occurrence list is exactly
    `["you know", "um", "like"]` — ordered by each pattern's position in
    the fixed pattern list (the multi-word phrase `you know` is pattern 1,
    `um+` pattern 10, `like` pattern 16), not by text position (which
    would put `um` first). -/
theorem C5_filler_example :
    filler_count sampleFillerText =
      (3, ["you know".toList, "um".toList, "like".toList]) := by decide

/-! ### Claim C6 -/

/-- C6.  `words_per_minute` is `none` exactly when the duration is
    nonpositive or the word count negative; otherwise it returns
    `(word_count / duration) * 60` rounded to 2 decimals; and the two
    quoted examples hold. -/
theorem C6_words_per_minute_spec :
    (∀ (wc : ℤ) (d : ℚ), words_per_minute wc d = none ↔ d ≤ 0 ∨ wc < 0)
    ∧ (∀ (wc : ℤ) (d : ℚ), 0 < d → 0 ≤ wc →
        words_per_minute wc d = some (round2 ((wc : ℚ) / d * 60)))
    ∧ words_per_minute 50 30 = some 100
    ∧ words_per_minute 10 0 = none := by
  refine ⟨?_, ?_, ?_, ?_⟩
  · intro wc d
    simp only [words_per_minute]
    split_ifs with h1 h2
    · exact iff_of_true rfl (Or.inl h1)
    · exact iff_of_true rfl (Or.inr h2)
    · simp [h1, h2]
  · intro wc d hd hwc
    simp only [words_per_minute, if_neg (not_le.mpr hd), if_neg (not_lt.mpr hwc)]
  · simp only [words_per_minute, round2, pyRound, ratFloor_eq_floor]
    norm_num
  · simp only [words_per_minute]
    norm_num

/-- C6, witness: the characterisation applied at concrete inputs
    discharging the positivity hypotheses. -/
theorem C6_witness :
    (words_per_minute 10 0 = none ↔ (0 : ℚ) ≤ 0 ∨ (10 : ℤ) < 0)
    ∧ words_per_minute 50 30 = some (round2 ((50 : ℚ) / 30 * 60)) :=
  ⟨C6_words_per_minute_spec.1 10 0,
   C6_words_per_minute_spec.2.1 50 30 (by norm_num) (by norm_num)⟩

/-! ### Claim C7 -/

/-- C7, counterexample.  Rate invariance does hold, but the quoted value
    is wrong: 3 errors in 50 words is 6 errors per 100 words, giving
    penalty 6/12 = 0.5, not 0.25. -/
theorem C7_counterexample :
    normalize_grammar_errors 3 50 = 1/2 ∧ normalize_grammar_errors 3 50 ≠ 1/4 := by
  have h : normalize_grammar_errors 3 50 = 1/2 := by
    simp only [normalize_grammar_errors, clamp_01, MAX_GRAMMAR_ERRORS_PER_100]
    norm_num
  exact ⟨h, by rw [h]; norm_num⟩

/-- C7, amended.  Scaling the error count and the word count by the same
    positive factor leaves the grammar penalty unchanged; in particular
    `(3, 50)` and `(6, 100)` both give penalty 0.5 (not the 0.25 the spec
    quotes). -/
theorem C7_rate_invariance :
    (∀ (e w e2 w2 : ℤ) (k : ℚ), 0 ≤ e → 0 < w → 0 < k →
        (e2 : ℚ) = k * e → (w2 : ℚ) = k * w →
        normalize_grammar_errors e w = normalize_grammar_errors e2 w2)
    ∧ normalize_grammar_errors 3 50 = 1/2
    ∧ normalize_grammar_errors 6 100 = 1/2 := by
  refine ⟨?_, ?_, ?_⟩
  · intro e w e2 w2 k he hw hk he2 hw2
    have hw' : (0 : ℚ) < (w : ℚ) := by exact_mod_cast hw
    have hw2' : (0 : ℚ) < (w2 : ℚ) := by rw [hw2]; positivity
    have hw2z : 0 < w2 := by exact_mod_cast hw2'
    simp only [normalize_grammar_errors, if_neg (not_le.mpr hw), if_neg (not_le.mpr hw2z)]
    have hdiv : (e : ℚ) / (w : ℚ) = (e2 : ℚ) / (w2 : ℚ) := by
      rw [he2, hw2, mul_div_mul_left _ _ (ne_of_gt hk)]
    rw [hdiv]
  · simp only [normalize_grammar_errors, clamp_01, MAX_GRAMMAR_ERRORS_PER_100]
    norm_num
  · simp only [normalize_grammar_errors, clamp_01, MAX_GRAMMAR_ERRORS_PER_100]
    norm_num

/-- C7, witness: the invariance applied at `(3, 50)` against `(6, 100)`
    with scale factor 2. -/
theorem C7_witness :
    normalize_grammar_errors 3 50 = normalize_grammar_errors 6 100 :=
  C7_rate_invariance.1 3 50 6 100 2 (by norm_num) (by norm_num) (by norm_num)
    (by norm_num) (by norm_num)

/-! ### Claim C10 -/

/-- C10.  When the grammar-checking engine fails (raises, modelled as
    `Except.error`), `grammar_errors` returns `(0, [])` — identical to the
    result for an engine that reports no errors — for every text; the
    failure is never surfaced. -/
theorem C10_engine_failure_swallowed :
    ∀ (e : String) (text : List Char),
      grammar_errors (fun _ => .error e) text = (0, [])
      ∧ grammar_errors (fun _ => .ok []) text = (0, []) := by
  intro e text
  constructor <;> · simp only [grammar_errors]; split <;> simp

/-- Reduction of a successful `Except` bind (used to unfold the checked
    variants' `do` blocks). -/
theorem except_ok_bind {ε α β : Type} (a : α) (f : α → Except ε β) :
    (Except.ok a >>= f : Except ε β) = f a := rfl

/-! ### Claim C9 -/

/-- C9.  Every core pipeline function is total: with every division of the
    source routed through failing division (`cdiv`), each checked variant
    returns `Except.ok` of the plain result on every input — the guards
    (`word_count <= 0`, `duration_sec <= 0`, `wpm` positivity, constant
    nonzero divisors) rule every `ZeroDivisionError` out, and the
    remaining functions apply no partial primitive at all (including on
    empty strings, all-whitespace strings, `none` optionals and
    out-of-range penalties). -/
theorem C9_totality :
    (∀ e w : ℤ, checked_normalize_grammar_errors e w =
        .ok (normalize_grammar_errors e w))
    ∧ (∀ c w : ℤ, checked_normalize_fillers c w = .ok (normalize_fillers c w))
    ∧ (∀ x : Option ℚ, checked_normalize_wer x = .ok (normalize_wer x))
    ∧ (∀ x : Option ℚ, checked_fluency_penalty x = .ok (fluency_penalty x))
    ∧ (∀ (wc : ℤ) (d : ℚ), checked_words_per_minute wc d =
        .ok (words_per_minute wc d))
    ∧ (∀ g f w fl : ℚ, checked_calculate_final_score g f w fl =
        .ok (calculate_final_score g f w fl))
    ∧ (∀ g f w fl fin : ℚ, checked_generate_score_explanation g f w fl fin =
        .ok (generate_score_explanation g f w fl fin))
    ∧ (∀ t : List Char, checked_normalize_transcript t = .ok (normalize_transcript t))
    ∧ (∀ t : List Char, checked_filler_count t = .ok (filler_count t)) := by
  refine ⟨?_, ?_, ?_, ?_, ?_, fun _ _ _ _ => rfl, fun _ _ _ _ _ => rfl,
    fun _ => rfl, fun _ => rfl⟩
  · intro e w
    by_cases hw : w ≤ 0
    · simp [checked_normalize_grammar_errors, normalize_grammar_errors, hw]
    · have hw' : ((w : ℚ)) ≠ 0 := by
        have : (0 : ℚ) < (w : ℚ) := by exact_mod_cast lt_of_not_le hw
        exact ne_of_gt this
      simp [checked_normalize_grammar_errors, normalize_grammar_errors, cdiv, hw, hw',
        MAX_GRAMMAR_ERRORS_PER_100, except_ok_bind]
  · intro c w
    by_cases hw : w ≤ 0
    · simp [checked_normalize_fillers, normalize_fillers, hw]
    · have hw' : ((w : ℚ)) ≠ 0 := by
        have : (0 : ℚ) < (w : ℚ) := by exact_mod_cast lt_of_not_le hw
        exact ne_of_gt this
      simp [checked_normalize_fillers, normalize_fillers, cdiv, hw, hw', MAX_FILLERS_PER_100,
        except_ok_bind]
  · intro x
    match x with
    | none => rfl
    | some v =>
      by_cases hv : v < 0
      · simp [checked_normalize_wer, normalize_wer, hv]
      · norm_num [checked_normalize_wer, normalize_wer, cdiv, hv, MAX_WER, except_ok_bind]
  · intro x
    match x with
    | none => rfl
    | some v =>
      simp only [checked_fluency_penalty, fluency_penalty]
      split_ifs <;>
        norm_num [cdiv, IDEAL_WPM_MIN, IDEAL_WPM_MAX, VERY_SLOW_WPM, VERY_FAST_WPM,
          except_ok_bind]
  · intro wc d
    by_cases hd : d ≤ 0
    · simp [checked_words_per_minute, words_per_minute, hd]
    · by_cases hwc : wc < 0
      · simp [checked_words_per_minute, words_per_minute, hd, hwc]
      · have hd' : d ≠ 0 := ne_of_gt (lt_of_not_le hd)
        simp [checked_words_per_minute, words_per_minute, cdiv, hd, hwc, hd', except_ok_bind]

/-! ### Claim C8 — `normalize_transcript` -/

theorem not_ws_of_punct {c : Char} (h : isPunct c = true) : pyIsSpace c = false := by
  simp only [isPunct, Bool.or_eq_true, beq_iff_eq] at h
  rcases h with ((((rfl | rfl) | rfl) | rfl) | rfl) | rfl <;> rfl

theorem collapseWS_head (a : Char) (l : List Char) :
    (collapseWS (a :: l)).head? = some (if pyIsSpace a then ' ' else a) := by
  induction l generalizing a with
  | nil => by_cases ha : pyIsSpace a <;> simp [collapseWS, ha]
  | cons b t ih =>
    by_cases ha : pyIsSpace a <;> by_cases hb : pyIsSpace b <;>
      simp [collapseWS, ha, hb, ih b]

theorem collapseWS_ws_eq_space (l : List Char) :
    ∀ c ∈ collapseWS l, pyIsSpace c = true → c = ' ' := by
  induction l using collapseWS.induct with
  | case1 => simp [collapseWS]
  | case2 a ha => simp [collapseWS, ha]
  | case3 a ha => simp [collapseWS, ha]
  | case4 a b rest ha hb ih => simpa [collapseWS, ha, hb] using ih
  | case5 a b rest ha hb ih =>
    intro c hc hws
    rw [collapseWS, if_pos ha, if_neg hb] at hc
    rcases List.mem_cons.mp hc with rfl | hc
    · rfl
    · exact ih c hc hws
  | case6 a b rest ha ih =>
    intro c hc hws
    rw [collapseWS, if_neg ha] at hc
    rcases List.mem_cons.mp hc with rfl | hc
    · exact absurd hws (by simpa using ha)
    · exact ih c hc hws

theorem collapseWS_nw (l : List Char) :
    List.Chain' (fun a b => ¬(pyIsSpace a = true ∧ pyIsSpace b = true)) (collapseWS l) := by
  induction l using collapseWS.induct with
  | case1 => simp [collapseWS]
  | case2 a ha => simp [collapseWS, ha]
  | case3 a ha => simp [collapseWS, ha]
  | case4 a b rest ha hb ih => simpa [collapseWS, ha, hb] using ih
  | case5 a b rest ha hb ih =>
    rw [collapseWS, if_pos ha, if_neg hb]
    refine List.chain'_cons'.mpr ⟨?_, ih⟩
    intro y hy
    rw [collapseWS_head b rest, if_neg hb] at hy
    rintro ⟨_, hwy⟩
    rw [Option.mem_def, Option.some_inj] at hy
    subst hy
    exact hb hwy
  | case6 a b rest ha ih =>
    rw [collapseWS, if_neg ha]
    refine List.chain'_cons'.mpr ⟨?_, ih⟩
    intro y _
    rintro ⟨hwa, _⟩
    exact ha hwa

theorem collapseWS_filter (l : List Char) :
    (collapseWS l).filter (fun c => !pyIsSpace c) = l.filter (fun c => !pyIsSpace c) := by
  induction l using collapseWS.induct with
  | case1 => simp [collapseWS]
  | case2 a ha =>
    rw [collapseWS, if_pos ha]
    simp [List.filter_cons, ha, show pyIsSpace ' ' = true from rfl]
  | case3 a ha => simp [collapseWS, ha]
  | case4 a b rest ha hb ih =>
    rw [collapseWS, if_pos ha, if_pos hb, ih]
    simp [List.filter_cons, ha]
  | case5 a b rest ha hb ih =>
    rw [collapseWS, if_pos ha, if_neg hb]
    have hsp : pyIsSpace ' ' = true := rfl
    simp only [List.filter_cons, ha, hsp, ih, Bool.not_true, if_neg (by decide : ¬((false : Bool) = true))]
  | case6 a b rest ha ih =>
    rw [collapseWS, if_neg ha]
    simp only [List.filter_cons, ih]

theorem collapseWS_allws (l : List Char) (h : ∀ c ∈ l, pyIsSpace c = true) :
    ∀ c ∈ collapseWS l, pyIsSpace c = true := by
  induction l using collapseWS.induct with
  | case1 => simp [collapseWS]
  | case2 a ha =>
    rw [collapseWS, if_pos ha]
    intro c hc
    rw [List.mem_singleton] at hc
    subst hc
    rfl
  | case3 a ha => exact absurd (h a (by simp)) ha
  | case4 a b rest ha hb ih =>
    rw [collapseWS, if_pos ha, if_pos hb]
    exact ih fun c hc => h c (List.mem_cons_of_mem a hc)
  | case5 a b rest ha hb ih => exact absurd (h b (by simp)) hb
  | case6 a b rest ha ih => exact absurd (h a (by simp)) ha

theorem not_punct_of_ws {c : Char} (h : pyIsSpace c = true) : isPunct c = false := by
  simp only [pyIsSpace, Bool.or_eq_true, beq_iff_eq] at h
  rcases h with ((((rfl | rfl) | rfl) | rfl) | rfl) | rfl <;> rfl

theorem fixAux_punct (c : Char) (acc : List Char × Bool) (h : isPunct c = true) :
    fixAux c acc = (c :: acc.1, true) := by
  unfold fixAux
  rw [if_pos h]

theorem fixAux_ws_p (c : Char) (acc : List Char × Bool) (h1 : ¬isPunct c = true)
    (h2 : pyIsSpace c = true) (h3 : acc.2 = true) : fixAux c acc = acc := by
  unfold fixAux
  rw [if_neg h1, if_pos h2, if_pos h3]

theorem fixAux_ws_np (c : Char) (acc : List Char × Bool) (h1 : ¬isPunct c = true)
    (h2 : pyIsSpace c = true) (h3 : ¬acc.2 = true) : fixAux c acc = (c :: acc.1, false) := by
  unfold fixAux
  rw [if_neg h1, if_pos h2, if_neg h3]

theorem fixAux_plain (c : Char) (acc : List Char × Bool) (h1 : ¬isPunct c = true)
    (h2 : ¬pyIsSpace c = true) : fixAux c acc = (c :: acc.1, false) := by
  unfold fixAux
  rw [if_neg h1, if_neg h2]

theorem fixPunct_snd_iff (l : List Char) :
    (l.foldr fixAux ([], false)).2 = true ↔
      ∃ p, (l.foldr fixAux ([], false)).1.head? = some p ∧ isPunct p = true := by
  induction l with
  | nil => simp
  | cons c t ih =>
    simp only [List.foldr_cons]
    by_cases hp : isPunct c = true
    · rw [fixAux_punct c _ hp]
      simp [hp]
    · by_cases hw : pyIsSpace c = true
      · by_cases hpend : (List.foldr fixAux ([], false) t).2 = true
        · rw [fixAux_ws_p c _ hp hw hpend]
          exact ih
        · rw [fixAux_ws_np c _ hp hw hpend]
          simp [hp]
      · rw [fixAux_plain c _ hp hw]
        simp [hp]

theorem fixPunct_sublist (l : List Char) :
    (l.foldr fixAux ([], false)).1.Sublist l := by
  induction l with
  | nil => simp
  | cons c t ih =>
    simp only [List.foldr_cons]
    by_cases hp : isPunct c = true
    · rw [fixAux_punct c _ hp]
      exact ih.cons₂ c
    · by_cases hw : pyIsSpace c = true
      · by_cases hpend : (List.foldr fixAux ([], false) t).2 = true
        · rw [fixAux_ws_p c _ hp hw hpend]
          exact ih.cons c
        · rw [fixAux_ws_np c _ hp hw hpend]
          exact ih.cons₂ c
      · rw [fixAux_plain c _ hp hw]
        exact ih.cons₂ c

theorem fixPunct_head_ws (l : List Char) (h : Char)
    (hh : (l.foldr fixAux ([], false)).1.head? = some h) (hws : pyIsSpace h = true) :
    ∃ g, l.head? = some g ∧ pyIsSpace g = true := by
  cases l with
  | nil => simp at hh
  | cons c t =>
    simp only [List.foldr_cons] at hh
    by_cases hp : isPunct c = true
    · rw [fixAux_punct c _ hp] at hh
      simp only [List.head?_cons, Option.some_inj] at hh
      subst hh
      rw [not_ws_of_punct hp] at hws
      exact absurd hws (by simp)
    · by_cases hw : pyIsSpace c = true
      · exact ⟨c, rfl, hw⟩
      · rw [fixAux_plain c _ hp hw] at hh
        simp only [List.head?_cons, Option.some_inj] at hh
        subst hh
        exact absurd hws (by simp [hw])

theorem fixPunct_nw (l : List Char)
    (h : List.Chain' (fun a b => ¬(pyIsSpace a = true ∧ pyIsSpace b = true)) l) :
    List.Chain' (fun a b => ¬(pyIsSpace a = true ∧ pyIsSpace b = true))
      (l.foldr fixAux ([], false)).1 := by
  induction l with
  | nil => simp
  | cons c t ih =>
    obtain ⟨hrel, ht⟩ := List.chain'_cons'.mp h
    simp only [List.foldr_cons]
    by_cases hp : isPunct c = true
    · rw [fixAux_punct c _ hp]
      refine List.chain'_cons'.mpr ⟨?_, ih ht⟩
      intro y _
      rintro ⟨hwc, _⟩
      rw [not_ws_of_punct hp] at hwc
      exact absurd hwc (by simp)
    · by_cases hw : pyIsSpace c = true
      · by_cases hpend : (List.foldr fixAux ([], false) t).2 = true
        · rw [fixAux_ws_p c _ hp hw hpend]
          exact ih ht
        · rw [fixAux_ws_np c _ hp hw hpend]
          refine List.chain'_cons'.mpr ⟨?_, ih ht⟩
          intro y hy
          rintro ⟨_, hwy⟩
          obtain ⟨g, hg, hgws⟩ := fixPunct_head_ws t y hy hwy
          exact hrel g hg ⟨hw, hgws⟩
      · rw [fixAux_plain c _ hp hw]
        refine List.chain'_cons'.mpr ⟨?_, ih ht⟩
        intro y _
        rintro ⟨hwc, _⟩
        exact hw hwc

theorem fixPunct_np (l : List Char) :
    List.Chain' (fun a b => ¬(pyIsSpace a = true ∧ isPunct b = true))
      (l.foldr fixAux ([], false)).1 := by
  induction l with
  | nil => simp
  | cons c t ih =>
    simp only [List.foldr_cons]
    by_cases hp : isPunct c = true
    · rw [fixAux_punct c _ hp]
      refine List.chain'_cons'.mpr ⟨?_, ih⟩
      intro y _
      rintro ⟨hwc, _⟩
      rw [not_ws_of_punct hp] at hwc
      exact absurd hwc (by simp)
    · by_cases hw : pyIsSpace c = true
      · by_cases hpend : (List.foldr fixAux ([], false) t).2 = true
        · rw [fixAux_ws_p c _ hp hw hpend]
          exact ih
        · rw [fixAux_ws_np c _ hp hw hpend]
          refine List.chain'_cons'.mpr ⟨?_, ih⟩
          intro y hy
          rintro ⟨_, hpy⟩
          exact hpend ((fixPunct_snd_iff t).mpr ⟨y, hy, hpy⟩)
      · rw [fixAux_plain c _ hp hw]
        refine List.chain'_cons'.mpr ⟨?_, ih⟩
        intro y _
        rintro ⟨hwc, _⟩
        exact hw hwc

theorem fixPunct_filter (l : List Char) :
    (l.foldr fixAux ([], false)).1.filter (fun c => !pyIsSpace c) =
      l.filter (fun c => !pyIsSpace c) := by
  induction l with
  | nil => simp
  | cons c t ih =>
    simp only [List.foldr_cons]
    by_cases hp : isPunct c = true
    · rw [fixAux_punct c _ hp]
      simp only [List.filter_cons, not_ws_of_punct hp, ih]
    · by_cases hw : pyIsSpace c = true
      · by_cases hpend : (List.foldr fixAux ([], false) t).2 = true
        · rw [fixAux_ws_p c _ hp hw hpend]
          simp only [List.filter_cons, hw, ih]
          simp
        · rw [fixAux_ws_np c _ hp hw hpend]
          simp only [List.filter_cons, hw, ih]
      · rw [fixAux_plain c _ hp hw]
        simp only [List.filter_cons, ih]

theorem fixPunct_allws (l : List Char) (h : ∀ c ∈ l, pyIsSpace c = true) :
    l.foldr fixAux ([], false) = (l, false) := by
  induction l with
  | nil => rfl
  | cons c t ih =>
    have hw : pyIsSpace c = true := h c (by simp)
    have hp : ¬isPunct c = true := by simp [not_punct_of_ws hw]
    rw [List.foldr_cons, ih fun d hd => h d (List.mem_cons_of_mem c hd)]
    rw [fixAux_ws_np c _ hp hw (by simp)]

theorem head_dropWhile_false {p : Char → Bool} (l : List Char) (c : Char)
    (h : (l.dropWhile p).head? = some c) : p c = false := by
  induction l with
  | nil => simp at h
  | cons a t ih =>
    rw [List.dropWhile_cons] at h
    by_cases ha : p a = true
    · rw [if_pos ha] at h
      exact ih h
    · rw [if_neg ha] at h
      simp only [List.head?_cons, Option.some_inj] at h
      subst h
      exact Bool.not_eq_true _ |>.mp ha

theorem chain'_pyStrip {R : Char → Char → Prop} {l : List Char}
    (h : List.Chain' R l) : List.Chain' R (pyStrip l) := by
  unfold pyStrip
  have h1 : List.Chain' R (l.dropWhile pyIsSpace) :=
    h.suffix (List.dropWhile_suffix pyIsSpace)
  have h2 : List.Chain' (flip R) (l.dropWhile pyIsSpace).reverse :=
    List.chain'_reverse.mpr h1
  have h3 := h2.suffix (List.dropWhile_suffix pyIsSpace)
  exact List.chain'_reverse.mpr h3

theorem mem_pyStrip {c : Char} {l : List Char} (h : c ∈ pyStrip l) : c ∈ l := by
  unfold pyStrip at h
  rw [List.mem_reverse] at h
  have h1 := (List.dropWhile_suffix pyIsSpace).sublist.subset h
  rw [List.mem_reverse] at h1
  exact (List.dropWhile_suffix pyIsSpace).sublist.subset h1

theorem filter_dropWhile_ws (l : List Char) :
    (l.dropWhile pyIsSpace).filter (fun c => !pyIsSpace c) =
      l.filter (fun c => !pyIsSpace c) := by
  induction l with
  | nil => simp
  | cons a t ih =>
    rw [List.dropWhile_cons]
    by_cases ha : pyIsSpace a = true
    · rw [if_pos ha, ih, List.filter_cons]
      simp [ha]
    · rw [if_neg ha]

theorem filter_pyStrip (l : List Char) :
    (pyStrip l).filter (fun c => !pyIsSpace c) = l.filter (fun c => !pyIsSpace c) := by
  unfold pyStrip
  rw [List.filter_reverse, filter_dropWhile_ws, List.filter_reverse,
    List.reverse_reverse, filter_dropWhile_ws]

theorem pyStrip_getLast_not_ws {l : List Char} {c : Char}
    (h : (pyStrip l).getLast? = some c) : pyIsSpace c = false := by
  unfold pyStrip at h
  rw [List.getLast?_reverse] at h
  exact head_dropWhile_false _ _ h

theorem pyStrip_head_not_ws {l : List Char} {c : Char}
    (h : (pyStrip l).head? = some c) : pyIsSpace c = false := by
  unfold pyStrip at h
  rw [List.head?_reverse] at h
  have hne : (l.dropWhile pyIsSpace).reverse.dropWhile pyIsSpace ≠ [] := by
    intro he
    rw [he] at h
    simp at h
  have hsplit := List.takeWhile_append_dropWhile pyIsSpace (l.dropWhile pyIsSpace).reverse
  have hlast : ((l.dropWhile pyIsSpace).reverse.dropWhile pyIsSpace).getLast? =
      (l.dropWhile pyIsSpace).reverse.getLast? := by
    conv_rhs => rw [← hsplit]
    exact (List.getLast?_append_of_ne_nil _ hne).symm
  rw [hlast, List.getLast?_reverse] at h
  exact head_dropWhile_false _ _ h

theorem pyStrip_allws {l : List Char} (h : ∀ c ∈ l, pyIsSpace c = true) :
    pyStrip l = [] := by
  unfold pyStrip
  rw [List.dropWhile_eq_nil_iff.mpr h]
  simp

/-- C8.  `normalize_transcript` maps the quoted example to
    `"Hello world."`; and for every input the output has every whitespace
    character equal to `' '` with no two adjacent (runs collapsed), has no
    whitespace immediately before `. , ! ? ; :`, neither starts nor ends
    with whitespace, preserves the sequence of non-whitespace characters
    (casing and punctuation untouched), and is empty for empty or
    all-whitespace input. -/
theorem C8_normalize_transcript_spec :
    normalize_transcript "  Hello   world  .  ".toList = "Hello world.".toList
    ∧ ∀ t : List Char,
        (∀ c ∈ normalize_transcript t, pyIsSpace c = true → c = ' ')
      ∧ List.Chain' (fun a b => ¬(pyIsSpace a = true ∧ pyIsSpace b = true))
          (normalize_transcript t)
      ∧ List.Chain' (fun a b => ¬(pyIsSpace a = true ∧ isPunct b = true))
          (normalize_transcript t)
      ∧ (∀ c, (normalize_transcript t).head? = some c → pyIsSpace c = false)
      ∧ (∀ c, (normalize_transcript t).getLast? = some c → pyIsSpace c = false)
      ∧ (normalize_transcript t).filter (fun c => !pyIsSpace c) =
          t.filter (fun c => !pyIsSpace c)
      ∧ ((∀ c ∈ t, pyIsSpace c = true) → normalize_transcript t = []) := by
  constructor
  · decide
  · intro t
    by_cases ht : t = []
    · subst ht
      refine ⟨?_, ?_, ?_, ?_, ?_, ?_, ?_⟩ <;> simp [normalize_transcript]
    · unfold normalize_transcript
      rw [if_neg ht]
      refine ⟨?_, ?_, ?_, ?_, ?_, ?_, ?_⟩
      · intro c hc hws
        exact collapseWS_ws_eq_space t c
          ((fixPunct_sublist (collapseWS t)).subset (mem_pyStrip hc)) hws
      · exact chain'_pyStrip (fixPunct_nw (collapseWS t) (collapseWS_nw t))
      · exact chain'_pyStrip (fixPunct_np (collapseWS t))
      · intro c hc
        exact pyStrip_head_not_ws hc
      · intro c hc
        exact pyStrip_getLast_not_ws hc
      · exact (filter_pyStrip _).trans
          ((fixPunct_filter (collapseWS t)).trans (collapseWS_filter t))
      · intro hall
        have h1 : ∀ c ∈ collapseWS t, pyIsSpace c = true := collapseWS_allws t hall
        have h2 : fixPunct (collapseWS t) = collapseWS t := by
          unfold fixPunct
          rw [fixPunct_allws (collapseWS t) h1]
        rw [h2]
        exact pyStrip_allws h1

/-- C8, witness: the all-whitespace clause applied to a concrete
    space-and-tab input. -/
theorem C8_witness : normalize_transcript [' ', '\t'] = [] :=
  (C8_normalize_transcript_spec.2 [' ', '\t']).2.2.2.2.2.2 (by decide)
